import Mathlib

/-!
Shallow embedding of the ranking core of the openai_demo repository
(files `demo0.py`, `demo_prototype_ESAG.py`, `demo.py`).

Conventions of the embedding:
* Python floats are modelled by `ℚ`; every constant of the source
  (`0.60`, `0.25`, `0.15`, `1.0`, `0.66`, `0.33`, `0.4`, `0.35`) is the
  corresponding rational.  All comparisons appearing in the concrete
  theorems below have margins far larger than double rounding error, so
  the rational model agrees with IEEE semantics on them.
* A Python artwork dict is modelled by `Artwork`, whose fields are the
  keys the ranking core reads; a value is `FieldVal.str s` for a string
  value and `FieldVal.nonstr r` for a non-string value whose `str()`
  form is `r`; a missing key is `none`.
* Fallible Python code (KeyError on `art["title"]`, AttributeError on
  `.lower()` of a non-string, IndexError on list indexing) is modelled
  with `Except String`.
* The external OpenAI call is modelled by the `Oracle` parameter: the
  body of the Python `try:` receives `success text` (the message
  content) and the `except:` branch receives `failure err`.
* `difflib.SequenceMatcher.ratio` (no junk, strings shorter than the
  autojunk limit of 200) is embedded by `ratioQ`: the recursive
  Ratcliff/Obershelp matching used by `get_matching_blocks`, with
  `find_longest_match`'s tie rules (longest block, then earliest start
  in the first sequence, then earliest start in the second).
* The regexes of the three parsers are embedded by direct scanning
  functions that reproduce `re.findall` semantics on the concrete
  patterns, including `\s` runs spanning newlines after the numeral.
  The only deliberate divergence is a capture consisting purely of
  whitespace at the very end of the text, which every downstream
  pipeline of the source discards anyway.
* Python's `list.sort(key=..., reverse=True)` (Timsort) is a stable
  descending sort; it is embedded by the stable insertion sort
  `sortDescStable`, which is extensionally equal to any stable
  descending sort by the same key.
-/

namespace ArtHub

/-- ASCII whitespace matched by the regex class `\s` and by `str.strip()`. -/
def isSpaceC (c : Char) : Bool :=
  c = ' ' || c = '\t' || c = '\n' || c = '\r' || c = '\x0b' || c = '\x0c'

/-- ASCII digits matched by the regex class `\d` (inputs are ASCII). -/
def isDigitC (c : Char) : Bool := '0' ≤ c && c ≤ '9'

/-- `str.lower()` character-wise (ASCII-faithful). -/
def lowerL (cs : List Char) : List Char := cs.map Char.toLower

/-- `str.lower()` on a string. -/
def lowerS (s : String) : String := ⟨lowerL s.data⟩

/-- Drop leading whitespace, as in `str.lstrip()`. -/
def trimLeadWs (cs : List Char) : List Char := cs.dropWhile (fun c => isSpaceC c)

/-- Drop trailing whitespace, as in `str.rstrip()`. -/
def trimTrailWs (cs : List Char) : List Char :=
  ((cs.reverse).dropWhile (fun c => isSpaceC c)).reverse

/-- `str.strip()`. -/
def trimWs (cs : List Char) : List Char := trimTrailWs (trimLeadWs cs)

/-- `str.strip(chars)`: drop the given characters from both ends. -/
def stripChars (cset : List Char) (cs : List Char) : List Char :=
  ((cs.dropWhile (fun c => cset.contains c)).reverse.dropWhile
      (fun c => cset.contains c)).reverse

/-- `demo0.normalize_text`: lower-case, replace every character outside
`[a-z0-9 ]` by a space (the replacement collapses under `split`). -/
def normChar (c : Char) : Char :=
  if ('a' ≤ c && c ≤ 'z') || ('0' ≤ c && c ≤ '9') || c = ' ' then c else ' '

/-- Split on spaces, dropping empty groups, as `str.split()` does after
`normalize_text` (whose output contains no other whitespace). -/
def splitSpacesAux : List Char → List Char → List (List Char)
  | [], acc => if acc.isEmpty then [] else [acc.reverse]
  | c :: rest, acc =>
      if c = ' ' then
        if acc.isEmpty then splitSpacesAux rest []
        else acc.reverse :: splitSpacesAux rest []
      else splitSpacesAux rest (c :: acc)

/-- The token list of `normalize_text(s).split()` in `demo0.py`. -/
def tokensOf (s : String) : List String :=
  (splitSpacesAux ((lowerL s.data).map normChar) []).map (fun w => (⟨w⟩ : String))

/-- The token set (`set(...)` in Python). -/
def tokenSet (s : String) : Finset String := (tokensOf s).toFinset

/-- Length of the common run at the heads of two character lists. -/
def commonLen : List Char → List Char → ℕ
  | a :: as, b :: bs => if a = b then commonLen as bs + 1 else 0
  | _, _ => 0

/-- Scan the suffixes of `b` (index `j` onwards) against one suffix
`sa` of `a` (at index `i`), updating the best block `(bi, bj, bk)` on
a strictly longer common run. -/
def bestRow (sa : List Char) (i : ℕ) : ℕ → List Char → ℕ → ℕ → ℕ → ℕ × ℕ × ℕ
  | _, [], bi, bj, bk => (bi, bj, bk)
  | j, c :: rest, bi, bj, bk =>
      let k := commonLen sa (c :: rest)
      if k > bk then bestRow sa i (j + 1) rest i j k
      else bestRow sa i (j + 1) rest bi bj bk

/-- Scan the suffixes of `a` (index `i` onwards), running `bestRow`
against all suffixes of `b` for each. -/
def bestRows (b : List Char) : ℕ → List Char → ℕ → ℕ → ℕ → ℕ × ℕ × ℕ
  | _, [], bi, bj, bk => (bi, bj, bk)
  | i, c :: rest, bi, bj, bk =>
      match bestRow (c :: rest) i 0 b bi bj bk with
      | (bi2, bj2, bk2) => bestRows b (i + 1) rest bi2 bj2 bk2

/-- `difflib.SequenceMatcher.find_longest_match` (no junk): the triple
`(i, j, k)` of the longest matching block, ties resolved to the
smallest `i`, then the smallest `j` (strict-greater updates while
scanning `i` ascending, then `j` ascending); `(0, 0, 0)` when nothing
matches. -/
def bestBlock (a b : List Char) : ℕ × ℕ × ℕ := bestRows b 0 a 0 0 0

/-- Total size of `difflib.SequenceMatcher.get_matching_blocks`:
recursive Ratcliff/Obershelp decomposition around the longest block.
The fuel argument strictly exceeds the recursion depth whenever it is
at least `a.length + b.length`. -/
def matchTotal : ℕ → List Char → List Char → ℕ
  | 0, _, _ => 0
  | fuel + 1, a, b =>
      let t := bestBlock a b
      if t.2.2 = 0 then 0
      else
        t.2.2 + matchTotal fuel (a.take t.1) (b.take t.2.1) +
          matchTotal fuel (a.drop (t.1 + t.2.2)) (b.drop (t.2.1 + t.2.2))

/-- `difflib.SequenceMatcher(None, a, b).ratio()` as a rational:
`2*M / (len(a)+len(b))`, and `1` when both are empty. -/
def ratioQ (a b : List Char) : ℚ :=
  if a.length + b.length = 0 then 1
  else 2 * (matchTotal (a.length + b.length) a b : ℚ) / ((a.length + b.length : ℕ) : ℚ)

/-- Insert, keeping a descending-by-key list descending; a new element
goes after all elements with a key `≥` its own (stability). -/
def insertDesc {α : Type} (key : α → ℚ) (x : α) : List α → List α
  | [] => [x]
  | y :: ys => if key x > key y then x :: y :: ys else y :: insertDesc key x ys

/-- Stable descending sort by `key`; extensionally equal to Python's
`list.sort(key=..., reverse=True)`. -/
def sortDescStable {α : Type} (key : α → ℚ) (l : List α) : List α :=
  l.foldl (fun acc x => insertDesc key x acc) []

/-- A value stored under a key of an artwork dict. -/
inductive FieldVal where
  | str (s : String)
  | nonstr (strForm : String)
deriving DecidableEq, Repr

/-- The artwork record: the keys the ranking core reads.  `none`
models a missing key. -/
structure Artwork where
  title : Option FieldVal
  artist : Option FieldVal
  tags : Option FieldVal
  style : Option FieldVal
  medium : Option FieldVal
  suburb : Option FieldVal
  price_range : Option FieldVal
deriving DecidableEq, Repr

/-- An artwork carrying only a (string) title. -/
def artT (t : String) : Artwork := ⟨some (FieldVal.str t), none, none, none, none, none, none⟩

/-- `str(v)` for an optional field with default `""`
(`str(art.get("title", ""))` in the ESAG variant). -/
def strOfField : Option FieldVal → String
  | none => ""
  | some (FieldVal.str s) => s
  | some (FieldVal.nonstr r) => r

/-- `art["title"]` followed by `.lower()`-style use: KeyError when the
key is missing, AttributeError when the value is not a string. -/
def titleStr (a : Artwork) : Except String String :=
  match a.title with
  | some (FieldVal.str s) => Except.ok s
  | some (FieldVal.nonstr _) => Except.error "AttributeError"
  | none => Except.error "KeyError"

/-- One outcome of the external OpenAI chat call. -/
inductive Oracle where
  | success (text : String)
  | failure (err : String)
deriving DecidableEq, Repr

/-- Scan for `^\s*\d+\.\s*([^\n]+)` (MULTILINE) starting at a line
start: skip whitespace (which may span newlines), require a digit run
and a dot, skip whitespace, capture the maximal run of non-newline
characters.  Returns the capture and the remaining text. -/
def capLine (cs : List Char) : Option (List Char × List Char) :=
  let cs1 := cs.dropWhile (fun c => isSpaceC c)
  let ds := cs1.takeWhile (fun c => isDigitC c)
  if ds.isEmpty then none else
  match cs1.drop ds.length with
  | '.' :: cs3 =>
      let cs4 := cs3.dropWhile (fun c => isSpaceC c)
      let cap := cs4.takeWhile (fun c => c ≠ '\n')
      if cap.isEmpty then none else some (cap, cs4.drop cap.length)
  | _ => none

/-- Advance past the current line. -/
def skipLine (cs : List Char) : List Char := (cs.dropWhile (fun c => c ≠ '\n')).drop 1

/-- `re.findall(r"^\s*\d+\.\s*([^\n]+)", text, re.MULTILINE)`:
attempt `capLine` at each line start, resuming after a capture. -/
def findNumbered : ℕ → List Char → List (List Char)
  | 0, _ => []
  | _, [] => []
  | fuel + 1, cs =>
      match capLine cs with
      | some (cap, rest) => cap :: findNumbered fuel (skipLine rest)
      | none => findNumbered fuel (skipLine cs)

/-- Characters admitted by the capture class `[^\n-]` of `demo.py`. -/
def isCapD (c : Char) : Bool := !(c = '\n' || c = '-')

/-- Attempt `\d+\.\s*([^\n-]+)` at a position that starts with a digit,
including the backtracking case in which the greedy `\s*` gives back a
trailing non-newline whitespace character to satisfy `([^\n-]+)`. -/
def demoCap (cs : List Char) : Option (List Char × List Char) :=
  let ds := cs.takeWhile (fun c => isDigitC c)
  if ds.isEmpty then none else
  match cs.drop ds.length with
  | '.' :: cs3 =>
      let w := cs3.takeWhile (fun c => isSpaceC c)
      let k := cs3.drop w.length
      match k with
      | c :: _ =>
          if isCapD c then
            let cap := k.takeWhile (fun x => isCapD x)
            some (cap, k.drop cap.length)
          else
            match w.reverse.dropWhile (fun x => x = '\n') with
            | [] => none
            | c2 :: r2 => some ([c2], cs3.drop (r2.length + 1))
      | [] =>
          match w.reverse.dropWhile (fun x => x = '\n') with
          | [] => none
          | c2 :: r2 => some ([c2], cs3.drop (r2.length + 1))
  | _ => none

/-- `re.findall(r"\d+\.\s*([^\n-]+)", text)` (unanchored): leftmost,
non-overlapping matches. -/
def findallDemo : ℕ → List Char → List (List Char)
  | 0, _ => []
  | _, [] => []
  | fuel + 1, c :: rest =>
      if isDigitC c then
        match demoCap (c :: rest) with
        | some (cap, r) => cap :: findallDemo fuel r
        | none => findallDemo fuel rest
      else findallDemo fuel rest

namespace Demo0

/-- The parsing stage of `demo0.get_ai_ranked_titles`:
`re.findall(r"^\s*\d+\.\s*([^\n]+?)\s*$", text, re.MULTILINE)` (the
lazy capture with `\s*$` right-trims each capture) followed by
`[t.strip(" -*\"") for t in ranked if t.strip()]`. -/
def parsedRanked (text : String) : List String :=
  ((findNumbered (text.data.length + 1) text.data).filter
      (fun cap => !(trimWs cap).isEmpty)).map
    (fun cap => (⟨stripChars [' ', '-', '*', '"'] (trimTrailWs cap)⟩ : String))

/-- `demo0.get_ai_ranked_titles(query, artworks)`.  The function reads
the globals `openai.api_key` (parameter `hasKey`) and performs the API
call whose outcome is `o`; the response content is `.strip()`-ed.  It
returns the explanation text and at most 3 parsed titles; on an
exception it returns the error note and no titles. -/
def get_ai_ranked_titles (query : String) (hasKey : Bool) (o : Oracle) :
    Option String × List String :=
  if query = "" || !hasKey then (none, [])
  else
    match o with
    | Oracle.success raw =>
        let text : String := ⟨trimWs raw.data⟩
        (some text, (parsedRanked text).take 3)
    | Oracle.failure e => (some ("(AI error: " ++ e ++ ")"), [])

/-- Python string `<` (code-point lexicographic), used by
`heapq.nlargest` to break ties between equal scores in
`difflib.get_close_matches`. -/
def listLtChar : List Char → List Char → Bool
  | [], [] => false
  | [], _ :: _ => true
  | _ :: _, [] => false
  | a :: as, b :: bs => if a = b then listLtChar as bs else decide (a < b)

/-- `difflib.get_close_matches(word, possibilities, n=1, cutoff=2/5)`:
keep the possibilities whose ratio against `word` is at least the
cutoff (the quick-ratio pre-filters are upper bounds of the ratio, so
they do not change the set), then take the largest `(score, string)`
pair in lexicographic order, as `heapq.nlargest(1, result)` does. -/
def getCloseMatch1 (word : List Char) (poss : List (List Char)) : Option (List Char) :=
  let cands := poss.filterMap (fun x =>
    let r := ratioQ x word
    if r ≥ 2/5 then some (r, x) else none)
  (cands.foldl (fun best p =>
      match best with
      | none => some p
      | some q =>
          if q.1 < p.1 ∨ (q.1 = p.1 ∧ listLtChar q.2 p.2) then some p else some q)
    none).map (fun p => p.2)

/-- The boost weights `[1.0, 0.66, 0.33]` of `demo0.order_artworks`. -/
def weights3 : List ℚ := [1, 33/50, 33/100]

/-- Write `m[k] = v` in a map modelled as an association list. -/
def setKey (m : List (String × ℚ)) (k : String) (v : ℚ) : List (String × ℚ) :=
  if m.any (fun p => p.1 = k) then m.map (fun p => if p.1 = k then (k, v) else p)
  else m ++ [(k, v)]

/-- `m.get(k, d)` on the association-list map. -/
def lookupD (m : List (String × ℚ)) (k : String) (d : ℚ) : ℚ :=
  match m.find? (fun p => p.1 = k) with
  | some p => p.2
  | none => d

/-- The `ai_boost` construction of `demo0.order_artworks`:
`for idx, t in enumerate(ai_titles): best =
get_close_matches(t.lower(), [rt.lower() for rt in real_titles], n=1,
cutoff=0.4); if best: ai_boost[best[0]] = [1.0, 0.66, 0.33][idx]`.
The list indexing is fallible (IndexError). -/
def boostLoop (realLower : List String) : ℕ → List String → List (String × ℚ) →
    Except String (List (String × ℚ))
  | _, [], m => Except.ok m
  | idx, t :: ts, m =>
      match getCloseMatch1 (lowerL t.data) (realLower.map (fun s => s.data)) with
      | none => boostLoop realLower (idx + 1) ts m
      | some b =>
          match weights3.get? idx with
          | none => Except.error "IndexError"
          | some w => boostLoop realLower (idx + 1) ts (setKey m (⟨b⟩ : String) w)

/-- `[a["title"] for a in artworks]` with the later `.lower()` access
(fails on a missing or non-string title). -/
def titlesOf : List Artwork → Except String (List String)
  | [] => Except.ok []
  | a :: as =>
      match titleStr a with
      | Except.error e => Except.error e
      | Except.ok t =>
          match titlesOf as with
          | Except.error e => Except.error e
          | Except.ok ts => Except.ok (t :: ts)

/-- `fuzz = max over ai_titles of
SequenceMatcher(None, art["title"].lower(), t.lower()).ratio()`. -/
def fuzzOf (aiTitles : List String) (titleLower : List Char) : ℚ :=
  aiTitles.foldl (fun m t => max m (ratioQ titleLower (lowerL t.data))) 0

/-- The searchable fields loop of `demo0.compute_keyword_score`:
`for key in (...): if key in art and isinstance(art[key], str):
fields.append(art[key])`. -/
def searchFields (art : Artwork) : List String :=
  [art.title, art.artist, art.tags, art.style, art.medium,
    art.suburb, art.price_range].filterMap (fun v =>
      match v with
      | some (FieldVal.str s) => some s
      | _ => none)

/-- `base = len(overlap) / max(1, len(q))` of
`demo0.compute_keyword_score`. -/
def kwBase (query : String) (art : Artwork) : ℚ :=
  ((tokenSet query ∩ tokenSet (String.intercalate " " (searchFields art))).card : ℚ) /
    ((max 1 (tokenSet query).card : ℕ) : ℚ)

/-- The tail of `demo0.compute_keyword_score` once the title string
`t` is known: add `0.25` when a query token hits the title tokens,
then `min(base, 1.0)`. -/
def kwWithTitle (query : String) (art : Artwork) (t : String) : ℚ :=
  min (if tokenSet query ∩ tokenSet t ≠ ∅ then kwBase query art + 1/4 else kwBase query art) 1

/-- `demo0.compute_keyword_score(query, art)`: token overlap over the
searchable fields plus a `0.25` title bonus, clamped above by `1`;
`0` on an empty token set.  The title bonus normalizes
`art.get("title", "")`, which raises AttributeError when the stored
title is not a string. -/
def compute_keyword_score (query : String) (art : Artwork) : Except String ℚ :=
  if tokenSet query = ∅ then Except.ok 0
  else
    match art.title with
    | some (FieldVal.nonstr _) => Except.error "AttributeError"
    | some (FieldVal.str t) => Except.ok (kwWithTitle query art t)
    | none => Except.ok (kwWithTitle query art "")

/-- The scoring loop of `demo0.order_artworks` (lines 173-188): for
each artwork, `0.60*kw + 0.25*fuzz + 0.15*name_boost`, paired with the
original position (modelling Python object identity for the badge
set).  `art["title"].lower()` is evaluated for every artwork. -/
def scoreLoop (q : String) (aiTitles : List String) (boost : List (String × ℚ)) :
    ℕ → List Artwork → Except String (List (ℚ × ℕ × Artwork))
  | _, [] => Except.ok []
  | i, a :: as =>
      match (if q = "" then Except.ok 0 else compute_keyword_score q a) with
      | Except.error e => Except.error e
      | Except.ok kw =>
          match titleStr a with
          | Except.error e => Except.error e
          | Except.ok t =>
              let tl := lowerL t.data
              let fz := fuzzOf aiTitles tl
              let nb := lookupD boost (⟨tl⟩ : String) 0
              match scoreLoop q aiTitles boost (i + 1) as with
              | Except.error e => Except.error e
              | Except.ok rest =>
                  Except.ok ((3/5 * kw + 1/4 * fz + 3/20 * nb, i, a) :: rest)

/-- `demo0.order_artworks(query, artworks)`: build the boost map (only
when AI titles were parsed), score every artwork, sort stably by
descending final score, and return the explanation, the ordered
artworks and the original positions of the first `min(3, n)` entries
(the badge identity set). -/
def order_artworks (q : String) (arts : List Artwork) (hasKey : Bool) (o : Oracle) :
    Except String (Option String × List Artwork × List ℕ) :=
  let p := get_ai_ranked_titles q hasKey o
  let boostE :=
    if p.2.isEmpty then Except.ok []
    else
      match titlesOf arts with
      | Except.error e => Except.error e
      | Except.ok rts => boostLoop (rts.map lowerS) 0 p.2 []
  match boostE with
  | Except.error e => Except.error e
  | Except.ok boost =>
      match scoreLoop q p.2 boost 0 arts with
      | Except.error e => Except.error e
      | Except.ok scored =>
          let sorted := sortDescStable (fun x => x.1) scored
          Except.ok (p.1, sorted.map (fun x => x.2.2), (sorted.take 3).map (fun x => x.2.1))

end Demo0

namespace ESAG

/-- The separator class `[–—:-]` of the ESAG parser. -/
def sepChar (c : Char) : Bool := c = '–' || c = '—' || c = ':' || c = '-'

/-- The parsing stage of `ESAG.recommend_artworks_with_openai`:
`re.findall(r"^\s*\d+\.\s*([^\n]+)", text, re.MULTILINE)`, then for
each line `re.split(r"[–—:-]", ln, maxsplit=1)[0].strip()`, keeping
the non-empty results lower-cased, in order. -/
def parsedTitles (text : String) : List String :=
  (findNumbered (text.data.length + 1) text.data).filterMap (fun cap =>
    let t := trimWs (cap.takeWhile (fun c => !sepChar c))
    if t.isEmpty then none else some (⟨lowerL t⟩ : String))

/-- The score the reorder loop computes for one artwork:
`SequenceMatcher(None, ai_title, str(art.get("title", "")).lower()).ratio()`. -/
def scoreOfArt (aiTitle : List Char) (a : Artwork) : ℚ :=
  ratioQ aiTitle (lowerL (strOfField a.title).data)

/-- The inner scan of the reorder loop (`for idx, art in
enumerate(artworks)` with running index), updated only on a strictly
greater score. -/
def bestMatchAux (aiTitle : List Char) : ℕ → List Artwork →
    Option (ℕ × Artwork) × ℚ → Option (ℕ × Artwork) × ℚ
  | _, [], st => st
  | i, a :: as, st =>
      bestMatchAux aiTitle (i + 1) as
        (if scoreOfArt aiTitle a > st.2 then (some (i, a), scoreOfArt aiTitle a) else st)

/-- The inner scan of the reorder loop: best index and best score over
all artworks, starting from `best_idx = None`, `best_score = 0.0`. -/
def bestMatch (aiTitle : List Char) (arts : List Artwork) :
    Option (ℕ × Artwork) × ℚ :=
  bestMatchAux aiTitle 0 arts (none, 0)

/-- One iteration of the reorder loop of
`ESAG.recommend_artworks_with_openai`: accept the best match when it
exists, its index is unused and its score is at least `0.35`. -/
def reorderStep (arts : List Artwork) (st : List ℕ × List Artwork) (t : String) :
    List ℕ × List Artwork :=
  match bestMatch t.data arts with
  | (some pa, score) =>
      if !(st.1.contains pa.1) && score ≥ 7/20 then (st.1 ++ [pa.1], st.2 ++ [pa.2])
      else st
  | (none, _) => st

/-- `ESAG.recommend_artworks_with_openai(query, artworks)`: empty
query or API exception keeps the original order; otherwise parse the
(stripped) response, and if any titles were parsed, reorder to follow
them (first ten), appending the unused artworks in original order. -/
def recommend_artworks_with_openai (query : String) (arts : List Artwork) (o : Oracle) :
    Option String × List Artwork :=
  if query = "" then (none, arts)
  else
    match o with
    | Oracle.failure _ => (none, arts)
    | Oracle.success raw =>
        let text : String := ⟨trimWs raw.data⟩
        let ranked := parsedTitles text
        if ranked.isEmpty then (some text, arts)
        else
          let st := (ranked.take 10).foldl (reorderStep arts) ([], [])
          let rest := (arts.enum).filterMap (fun p =>
            if st.1.contains p.1 then none else some p.2)
          (some text, st.2 ++ rest)

end ESAG

namespace DemoPy

/-- The parsing stage of `demo.recommend_artworks_with_openai`:
`re.findall(r"\d+\.\s*([^\n-]+)", text)` followed by
`[t.strip().lower() for t in matched_titles]` (no empty filter). -/
def parsedTitles (text : String) : List String :=
  (findallDemo (text.data.length + 1) text.data).map
    (fun cap => (⟨lowerL (trimWs cap)⟩ : String))

/-- The inner loop `for art in artworks: if
art["title"].lower().startswith(title): reordered.append(art); break`:
first artwork whose lowered title starts with the candidate. -/
def findStart (t : List Char) : List Artwork → Except String (Option Artwork)
  | [] => Except.ok none
  | a :: as =>
      match titleStr a with
      | Except.error e => Except.error e
      | Except.ok s =>
          if t.isPrefixOf (lowerL s.data) then Except.ok (some a) else findStart t as

/-- The outer reorder loop of `demo.recommend_artworks_with_openai`:
for each parsed title append the first artwork whose lowered title
starts with it — with no duplicate guard. -/
def reorderLoop (arts : List Artwork) : List String → List Artwork →
    Except String (List Artwork)
  | [], acc => Except.ok acc
  | t :: ts, acc =>
      match findStart t.data arts with
      | Except.error e => Except.error e
      | Except.ok (some a) => reorderLoop arts ts (acc ++ [a])
      | Except.ok none => reorderLoop arts ts acc

/-- `demo.recommend_artworks_with_openai(query, artworks)`: reorder by
appending, for each parsed title, the first artwork whose title starts
with it (with no duplicate guard), then append every artwork not yet
present.  The response content is not stripped in this variant. -/
def recommend_artworks_with_openai (query : String) (arts : List Artwork) (o : Oracle) :
    Except String (Option String × List Artwork) :=
  if query = "" then Except.ok (none, arts)
  else
    match o with
    | Oracle.failure _ => Except.ok (none, arts)
    | Oracle.success text =>
        match reorderLoop arts (parsedTitles text) [] with
        | Except.error e => Except.error e
        | Except.ok reordered =>
            Except.ok (some text,
              arts.foldl (fun acc a => if acc.contains a then acc else acc ++ [a]) reordered)

end DemoPy

/-! Spec-side definitions used to state the claims, and lemmas. -/

/-- Decidable form of "the record stores a string title" (the
catalogue invariant of the data model). -/
def strTitle (a : Artwork) : Bool :=
  match a.title with
  | some (FieldVal.str _) => true
  | _ => false

/-- Decidable form of "the record stores a string title or none". -/
def strOrNoTitle (a : Artwork) : Bool :=
  match a.title with
  | some (FieldVal.nonstr _) => false
  | _ => true

/-- Whether a fallible computation succeeded. -/
def okB {α : Type} : Except String α → Bool
  | Except.ok _ => true
  | Except.error _ => false

/-- The lexical score as a total function (its value on the records
where `compute_keyword_score` succeeds). -/
def kwOf (q : String) (a : Artwork) : ℚ :=
  ((Demo0.compute_keyword_score q a).toOption).getD 0

/-- The order produced by the lexical score alone: stable descending
sort of the catalogue by `compute_keyword_score`. -/
def lexicalOrder (q : String) (arts : List Artwork) : List Artwork :=
  sortDescStable (fun a => kwOf q a) arts

/-- Spec-side (claim wording): the concatenation of the searchable
string fields of a record. -/
def fieldConcat (a : Artwork) : String :=
  String.intercalate " "
    ([a.title, a.artist, a.tags, a.style, a.medium, a.suburb,
        a.price_range].filterMap (fun v =>
      match v with
      | some (FieldVal.str s) => some s
      | _ => none))

/-- Spec-side (claim wording): `|queryTokens ∩ fieldTokens| /
max(1, |queryTokens|)`, plus a fixed `0.25` bonus when some query
token appears among the title tokens, clamped to `[0, 1]`. -/
def specLexScore (q : String) (a : Artwork) : ℚ :=
  let base : ℚ := ((tokenSet q ∩ tokenSet (fieldConcat a)).card : ℚ) /
    ((max 1 (tokenSet q).card : ℕ) : ℚ)
  min (if (tokenSet q ∩ tokenSet (strOfField a.title)).Nonempty then base + 1/4 else base) 1

/-- Spec-side (claim wording): `out` is a correct result of a stable
descending sort of `l` by `key`: it is descending, and for every
score class it lists exactly the members of `l` of that class, in
their original order.  (This pins the multiset and the tie order, so
it has exactly one solution.) -/
def IsStableDescOrder {α : Type} (key : α → ℚ) (l out : List α) : Prop :=
  List.Pairwise (fun x y => key y ≤ key x) out ∧
  ∀ s : ℚ, out.filter (fun x => decide (key x = s)) = l.filter (fun x => decide (key x = s))

/-- One call of the demo0 ranking core in an ambient process
environment.  The process has unseeded entropy available (`demo.py`
imports `random`), but the ranking core never consults it; the
translation therefore does not read the `entropy` argument. -/
def order_artworks_call (_entropy : ℕ → ℕ) (q : String) (arts : List Artwork)
    (hasKey : Bool) (o : Oracle) : Except String (Option String × List Artwork × List ℕ) :=
  Demo0.order_artworks q arts hasKey o

/-- One call of the ESAG ranking core in an ambient process
environment (see `order_artworks_call`). -/
def esag_recommend_call (_entropy : ℕ → ℕ) (q : String) (arts : List Artwork)
    (o : Oracle) : Option String × List Artwork :=
  ESAG.recommend_artworks_with_openai q arts o

/-- One call of the demo.py ranking core in an ambient process
environment (see `order_artworks_call`). -/
def demo_recommend_call (_entropy : ℕ → ℕ) (q : String) (arts : List Artwork)
    (o : Oracle) : Except String (Option String × List Artwork) :=
  DemoPy.recommend_artworks_with_openai q arts o

/-- Indexed pairing `(i, a), (i+1, a'), ...`, mirroring Python
`enumerate` starting at `i`. -/
def idxPairs {α : Type} : ℕ → List α → List (ℕ × α)
  | _, [] => []
  | i, a :: as => (i, a) :: idxPairs (i + 1) as

theorem idxPairs_map_snd {α : Type} : ∀ (i : ℕ) (l : List α),
    (idxPairs i l).map Prod.snd = l
  | _, [] => rfl
  | i, _ :: as => by simp [idxPairs, idxPairs_map_snd (i + 1) as]

/-! Lemmas about the stable descending insertion sort. -/

theorem insertDesc_cons_pos {α : Type} (key : α → ℚ) (x y : α) (ys : List α)
    (hk : key x > key y) : insertDesc key x (y :: ys) = x :: y :: ys := by
  simp [insertDesc, hk]

theorem insertDesc_cons_neg {α : Type} (key : α → ℚ) (x y : α) (ys : List α)
    (hk : ¬ key x > key y) : insertDesc key x (y :: ys) = y :: insertDesc key x ys := by
  simp [insertDesc, hk]

theorem mem_insertDesc {α : Type} (key : α → ℚ) (x z : α) :
    ∀ l : List α, z ∈ insertDesc key x l ↔ z = x ∨ z ∈ l
  | [] => by simp [insertDesc]
  | y :: ys => by
      by_cases h : key x > key y
      · rw [insertDesc_cons_pos key x y ys h]
        simp
      · rw [insertDesc_cons_neg key x y ys h]
        simp [mem_insertDesc key x z ys]
        tauto

theorem pairwise_insertDesc {α : Type} (key : α → ℚ) (x : α) :
    ∀ l : List α, List.Pairwise (fun a b => key b ≤ key a) l →
      List.Pairwise (fun a b => key b ≤ key a) (insertDesc key x l)
  | [], _ => by simp [insertDesc]
  | y :: ys, h => by
      rcases List.pairwise_cons.mp h with ⟨hy, hys⟩
      by_cases hk : key x > key y
      · rw [insertDesc_cons_pos key x y ys hk]
        refine List.pairwise_cons.mpr ⟨?_, h⟩
        intro z hz
        rcases List.mem_cons.mp hz with rfl | hz2
        · exact le_of_lt hk
        · exact le_trans (hy z hz2) (le_of_lt hk)
      · rw [insertDesc_cons_neg key x y ys hk]
        refine List.pairwise_cons.mpr ⟨?_, pairwise_insertDesc key x ys hys⟩
        intro z hz
        rcases (mem_insertDesc key x z ys).mp hz with rfl | hz2
        · exact not_lt.mp hk
        · exact hy z hz2

theorem filter_insertDesc_ne {α : Type} (key : α → ℚ) (s : ℚ) (x : α) (hx : ¬ key x = s) :
    ∀ l : List α,
      (insertDesc key x l).filter (fun a => decide (key a = s)) =
        l.filter (fun a => decide (key a = s))
  | [] => by simp [insertDesc, hx]
  | y :: ys => by
      by_cases hk : key x > key y
      · rw [insertDesc_cons_pos key x y ys hk]
        simp [List.filter_cons, hx]
      · rw [insertDesc_cons_neg key x y ys hk]
        simp [List.filter_cons, filter_insertDesc_ne key s x hx ys]

theorem filter_insertDesc_eq {α : Type} (key : α → ℚ) (s : ℚ) (x : α) (hx : key x = s) :
    ∀ l : List α, List.Pairwise (fun a b => key b ≤ key a) l →
      (insertDesc key x l).filter (fun a => decide (key a = s)) =
        l.filter (fun a => decide (key a = s)) ++ [x]
  | [], _ => by simp [insertDesc, hx]
  | y :: ys, h => by
      rcases List.pairwise_cons.mp h with ⟨hy, hys⟩
      by_cases hk : key x > key y
      · have hyne : ∀ z ∈ y :: ys, ¬ key z = s := by
          intro z hz
          rcases List.mem_cons.mp hz with rfl | hz2
          · exact ne_of_lt (hx ▸ hk)
          · exact ne_of_lt (lt_of_le_of_lt (hy z hz2) (hx ▸ hk))
        have hnil : (y :: ys).filter (fun a => decide (key a = s)) = [] := by
          rw [List.filter_eq_nil_iff]
          intro z hz
          simpa using hyne z hz
        rw [insertDesc_cons_pos key x y ys hk, List.filter_cons, hnil]
        simp [hx]
      · rw [insertDesc_cons_neg key x y ys hk, List.filter_cons, List.filter_cons,
          filter_insertDesc_eq key s x hx ys hys]
        by_cases hys2 : key y = s
        · simp [hys2]
        · simp [hys2]

theorem sortAux_spec {α : Type} (key : α → ℚ) :
    ∀ (l acc : List α), List.Pairwise (fun a b => key b ≤ key a) acc →
      List.Pairwise (fun a b => key b ≤ key a)
          (l.foldl (fun acc2 x => insertDesc key x acc2) acc) ∧
      ∀ s : ℚ,
        (l.foldl (fun acc2 x => insertDesc key x acc2) acc).filter
            (fun a => decide (key a = s)) =
          acc.filter (fun a => decide (key a = s)) ++
            l.filter (fun a => decide (key a = s))
  | [], acc, h => by simp [h]
  | x :: xs, acc, h => by
      have hacc2 := pairwise_insertDesc key x acc h
      obtain ⟨hp, hf⟩ := sortAux_spec key xs (insertDesc key x acc) hacc2
      refine ⟨hp, fun s => ?_⟩
      show (xs.foldl (fun acc2 z => insertDesc key z acc2) (insertDesc key x acc)).filter
          (fun a => decide (key a = s)) = _
      rw [hf s]
      by_cases hx : key x = s
      · rw [filter_insertDesc_eq key s x hx acc h]
        simp [List.filter_cons, hx]
      · rw [filter_insertDesc_ne key s x hx acc]
        simp [List.filter_cons, hx]

theorem sortDescStable_isStable {α : Type} (key : α → ℚ) (l : List α) :
    IsStableDescOrder key l (sortDescStable key l) := by
  obtain ⟨hp, hf⟩ := sortAux_spec key l [] (by simp)
  exact ⟨hp, fun s => by simpa using hf s⟩

theorem sorted_filter_unique {α : Type} (key : α → ℚ) :
    ∀ (out₁ out₂ : List α),
      List.Pairwise (fun a b => key b ≤ key a) out₁ →
      List.Pairwise (fun a b => key b ≤ key a) out₂ →
      (∀ s : ℚ, out₁.filter (fun a => decide (key a = s)) =
        out₂.filter (fun a => decide (key a = s))) →
      out₁ = out₂
  | [], [], _, _, _ => rfl
  | [], y :: t₂, _, _, hf => by
      have h := hf (key y)
      simp [List.filter_cons] at h
  | x :: t₁, [], _, _, hf => by
      have h := hf (key x)
      simp [List.filter_cons] at h
  | x :: t₁, y :: t₂, h₁, h₂, hf => by
      rcases List.pairwise_cons.mp h₁ with ⟨hx1, ht₁⟩
      rcases List.pairwise_cons.mp h₂ with ⟨hy2, ht₂⟩
      have hxy : key x = key y := by
        have hxmem : x ∈ y :: t₂ := by
          have h := hf (key x)
          have : x ∈ (y :: t₂).filter (fun a => decide (key a = key x)) := by
            rw [← h]
            simp [List.filter_cons]
          exact List.mem_of_mem_filter this
        have hymem : y ∈ x :: t₁ := by
          have h := hf (key y)
          have : y ∈ (x :: t₁).filter (fun a => decide (key a = key y)) := by
            rw [h]
            simp [List.filter_cons]
          exact List.mem_of_mem_filter this
        have hxle : key x ≤ key y := by
          rcases List.mem_cons.mp hxmem with rfl | hmem
          · rfl
          · exact hy2 x hmem
        have hyle : key y ≤ key x := by
          rcases List.mem_cons.mp hymem with rfl | hmem
          · rfl
          · exact hx1 y hmem
        exact le_antisymm hxle hyle
      have hhead := hf (key x)
      rw [List.filter_cons, List.filter_cons] at hhead
      simp [hxy] at hhead
      obtain ⟨rfl, htf⟩ := hhead
      have hrest : ∀ s : ℚ, t₁.filter (fun a => decide (key a = s)) =
          t₂.filter (fun a => decide (key a = s)) := by
        intro s
        by_cases hs : key x = s
        · rw [← hs]
          exact htf
        · have h := hf s
          rw [List.filter_cons, List.filter_cons] at h
          simpa [hs, hxy ▸ hs] using h
      exact congrArg (x :: ·) (sorted_filter_unique key t₁ t₂ ht₁ ht₂ hrest)

theorem isStableDescOrder_unique {α : Type} (key : α → ℚ) (l out₁ out₂ : List α)
    (h₁ : IsStableDescOrder key l out₁) (h₂ : IsStableDescOrder key l out₂) :
    out₁ = out₂ :=
  sorted_filter_unique key out₁ out₂ h₁.1 h₂.1
    (fun s => (h₁.2 s).trans (h₂.2 s).symm)

theorem insertDesc_append_last {α : Type} (key : α → ℚ) (x : α) :
    ∀ l : List α, (∀ y ∈ l, ¬ key x > key y) → insertDesc key x l = l ++ [x]
  | [], _ => rfl
  | y :: ys, h => by
      rw [insertDesc_cons_neg key x y ys (h y (by simp)),
        insertDesc_append_last key x ys (fun z hz => h z (by simp [hz]))]
      simp

theorem sortAux_const {α : Type} (key : α → ℚ) (c : ℚ) :
    ∀ (l acc : List α), (∀ x ∈ l, key x = c) → (∀ y ∈ acc, key y = c) →
      l.foldl (fun acc2 x => insertDesc key x acc2) acc = acc ++ l
  | [], acc, _, _ => by simp
  | x :: xs, acc, hl, hacc => by
      have hx : key x = c := hl x (by simp)
      have hins : insertDesc key x acc = acc ++ [x] :=
        insertDesc_append_last key x acc (fun y hy => by
          rw [hx, hacc y hy]
          exact lt_irrefl c)
      show xs.foldl (fun acc2 z => insertDesc key z acc2) (insertDesc key x acc) =
        acc ++ x :: xs
      rw [hins, sortAux_const key c xs (acc ++ [x])
          (fun z hz => hl z (by simp [hz]))
          (fun y hy => by
            rcases List.mem_append.mp hy with hy2 | hy2
            · exact hacc y hy2
            · simp at hy2
              rw [hy2, hx])]
      simp

theorem sortDescStable_const {α : Type} (key : α → ℚ) (c : ℚ) (l : List α)
    (h : ∀ x ∈ l, key x = c) : sortDescStable key l = l := by
  have := sortAux_const key c l [] h (by simp)
  simpa [sortDescStable] using this

theorem insertDesc_map {α β : Type} (key : β → ℚ) (f : α → β) (x : α) :
    ∀ l : List α,
      insertDesc key (f x) (l.map f) = (insertDesc (fun a => key (f a)) x l).map f
  | [] => rfl
  | y :: ys => by
      by_cases h : key (f x) > key (f y)
      · rw [List.map_cons, insertDesc_cons_pos key (f x) (f y) (ys.map f) h,
          insertDesc_cons_pos (fun a => key (f a)) x y ys h]
        simp
      · rw [List.map_cons, insertDesc_cons_neg key (f x) (f y) (ys.map f) h,
          insertDesc_cons_neg (fun a => key (f a)) x y ys h, List.map_cons,
          insertDesc_map key f x ys]

theorem sortAux_map {α β : Type} (key : β → ℚ) (f : α → β) :
    ∀ (l acc : List α),
      (l.map f).foldl (fun acc2 x => insertDesc key x acc2) (acc.map f) =
        (l.foldl (fun acc2 x => insertDesc (fun a => key (f a)) x acc2) acc).map f
  | [], acc => rfl
  | x :: xs, acc => by
      show (xs.map f).foldl _ (insertDesc key (f x) (acc.map f)) = _
      rw [insertDesc_map key f x acc, sortAux_map key f xs]
      rfl

theorem sortDescStable_map {α β : Type} (key : β → ℚ) (f : α → β) (l : List α) :
    sortDescStable key (l.map f) = (sortDescStable (fun a => key (f a)) l).map f := by
  have := sortAux_map key f l []
  simpa [sortDescStable] using this

theorem insertDesc_congr {α : Type} (k₁ k₂ : α → ℚ)
    (h : ∀ a b, k₁ a > k₁ b ↔ k₂ a > k₂ b) (x : α) :
    ∀ l : List α, insertDesc k₁ x l = insertDesc k₂ x l
  | [] => rfl
  | y :: ys => by
      by_cases hk : k₁ x > k₁ y
      · rw [insertDesc_cons_pos k₁ x y ys hk,
          insertDesc_cons_pos k₂ x y ys ((h x y).mp hk)]
      · rw [insertDesc_cons_neg k₁ x y ys hk,
          insertDesc_cons_neg k₂ x y ys (fun hc => hk ((h x y).mpr hc)),
          insertDesc_congr k₁ k₂ h x ys]

theorem sortDescStable_congr {α : Type} (k₁ k₂ : α → ℚ)
    (h : ∀ a b, k₁ a > k₁ b ↔ k₂ a > k₂ b) (l : List α) :
    sortDescStable k₁ l = sortDescStable k₂ l := by
  suffices haux : ∀ (l2 acc : List α),
      l2.foldl (fun acc2 x => insertDesc k₁ x acc2) acc =
        l2.foldl (fun acc2 x => insertDesc k₂ x acc2) acc by
    exact haux l []
  intro l2
  induction l2 with
  | nil => intro acc; rfl
  | cons x xs ih =>
      intro acc
      show xs.foldl _ (insertDesc k₁ x acc) = xs.foldl _ (insertDesc k₂ x acc)
      rw [insertDesc_congr k₁ k₂ h x acc, ih]

/-! Path lemmas for the demo0 core. -/

theorem strTitle_strOrNo (a : Artwork) (h : strTitle a = true) : strOrNoTitle a = true := by
  unfold strTitle at h
  unfold strOrNoTitle
  cases ht : a.title with
  | none => rfl
  | some v => cases v <;> simp_all [ht]

theorem compute_ok (q : String) (a : Artwork) (h : strOrNoTitle a = true) :
    Demo0.compute_keyword_score q a = Except.ok (kwOf q a) := by
  unfold strOrNoTitle at h
  unfold kwOf Demo0.compute_keyword_score
  by_cases hq : tokenSet q = ∅
  · simp [hq]
    rfl
  · cases ht : a.title with
    | none => simp [hq, ht, Except.toOption]
    | some v =>
        cases v with
        | str s => simp [hq, ht, Except.toOption]
        | nonstr r => simp [ht] at h

theorem kwOf_empty (a : Artwork) : kwOf "" a = 0 := rfl

theorem kwBranch_ok (q : String) (a : Artwork) (h : strOrNoTitle a = true) :
    (if q = "" then Except.ok 0 else Demo0.compute_keyword_score q a) =
      Except.ok (kwOf q a) := by
  by_cases hq : q = ""
  · subst hq
    simp [kwOf_empty]
  · simp [hq, compute_ok q a h]

theorem titleStr_of_strTitle (a : Artwork) (h : strTitle a = true) :
    titleStr a = Except.ok (strOfField a.title) := by
  unfold strTitle at h
  unfold titleStr strOfField
  cases ht : a.title with
  | none => simp [ht] at h
  | some v => cases v <;> simp_all [ht]

theorem scoreLoop_eval (q : String) (aiTitles : List String) (boost : List (String × ℚ)) :
    ∀ (arts : List Artwork) (i : ℕ), (∀ a ∈ arts, strTitle a = true) →
      Demo0.scoreLoop q aiTitles boost i arts =
        Except.ok ((idxPairs i arts).map (fun p =>
          (3/5 * kwOf q p.2 +
            1/4 * Demo0.fuzzOf aiTitles (lowerL (strOfField p.2.title).data) +
            3/20 * Demo0.lookupD boost (⟨lowerL (strOfField p.2.title).data⟩ : String) 0,
            p.1, p.2)))
  | [], _, _ => rfl
  | a :: as, i, h => by
      have ha := h a (by simp)
      have hrest := scoreLoop_eval q aiTitles boost as (i + 1)
        (fun b hb => h b (by simp [hb]))
      show (match (if q = "" then Except.ok 0 else Demo0.compute_keyword_score q a) with
        | Except.error e => Except.error e
        | Except.ok kw => _) = _
      rw [kwBranch_ok q a (strTitle_strOrNo a ha)]
      show (match titleStr a with
        | Except.error e => Except.error e
        | Except.ok t => _) = _
      rw [titleStr_of_strTitle a ha]
      show (match Demo0.scoreLoop q aiTitles boost (i + 1) as with
        | Except.error e => Except.error e
        | Except.ok rest => _) = _
      rw [hrest]
      simp [idxPairs]

/-- Decidable equality for `Except` results, used to evaluate the
embedding on concrete inputs. -/
def exceptEqDec {ε α : Type} [DecidableEq ε] [DecidableEq α] :
    (x y : Except ε α) → Decidable (x = y)
  | Except.ok v, Except.ok w =>
      if h : v = w then Decidable.isTrue (by rw [h]) else Decidable.isFalse (by simp [h])
  | Except.ok _, Except.error _ => Decidable.isFalse (by simp)
  | Except.error _, Except.ok _ => Decidable.isFalse (by simp)
  | Except.error v, Except.error w =>
      if h : v = w then Decidable.isTrue (by rw [h]) else Decidable.isFalse (by simp [h])

instance {ε α : Type} [DecidableEq ε] [DecidableEq α] : DecidableEq (Except ε α) :=
  exceptEqDec

theorem fuzzOf_nil (tl : List Char) : Demo0.fuzzOf [] tl = 0 := rfl

theorem lookupD_nil (k : String) (d : ℚ) : Demo0.lookupD [] k d = d := rfl

/-- Sorting the `(score, index, artwork)` triples by score and then
projecting the artworks equals sorting the artworks by their score
function (the indices only model object identity). -/
theorem sort_proj_eq (kf : Artwork → ℚ) (arts : List Artwork) :
    (sortDescStable (fun x : ℚ × ℕ × Artwork => x.1)
        ((idxPairs 0 arts).map (fun p => (kf p.2, p.1, p.2)))).map (fun x => x.2.2) =
      sortDescStable kf arts := by
  rw [sortDescStable_map (fun x : ℚ × ℕ × Artwork => x.1)
      (fun p : ℕ × Artwork => (kf p.2, p.1, p.2)) (idxPairs 0 arts), List.map_map]
  have hc : ((fun x : ℚ × ℕ × Artwork => x.2.2) ∘
      (fun p : ℕ × Artwork => (kf p.2, p.1, p.2))) = (fun p : ℕ × Artwork => p.2) := rfl
  rw [hc]
  conv_rhs => rw [← idxPairs_map_snd 0 arts,
    sortDescStable_map kf (fun p : ℕ × Artwork => p.2) (idxPairs 0 arts)]

/-- When the oracle stage yields no titles, `demo0.order_artworks`
orders the catalogue by the lexical score alone (every other term of
the blend is `0`). -/
theorem order_artworks_no_hints (q : String) (arts : List Artwork) (hasKey : Bool)
    (o : Oracle) (expl : Option String)
    (hget : Demo0.get_ai_ranked_titles q hasKey o = (expl, []))
    (h : ∀ a ∈ arts, strTitle a = true) :
    (Demo0.order_artworks q arts hasKey o).map (fun r => (r.1, r.2.1)) =
      Except.ok (expl, sortDescStable (fun a => kwOf q a) arts) := by
  have hscore := scoreLoop_eval q [] [] arts 0 h
  have hsimp : ((idxPairs 0 arts).map (fun p =>
      (3/5 * kwOf q p.2 + 1/4 * Demo0.fuzzOf [] (lowerL (strOfField p.2.title).data) +
        3/20 * Demo0.lookupD [] (⟨lowerL (strOfField p.2.title).data⟩ : String) 0,
        p.1, p.2))) =
      (idxPairs 0 arts).map (fun p =>
        ((fun a => 3/5 * kwOf q a) p.2, p.1, p.2)) := by
    apply List.map_congr_left
    intro p _
    simp [fuzzOf_nil, lookupD_nil]
  simp only [Demo0.order_artworks, hget, List.isEmpty_nil, if_true, hscore, hsimp,
    Except.map]
  rw [sort_proj_eq (fun a => 3/5 * kwOf q a) arts]
  have h3 : sortDescStable (fun a => 3/5 * kwOf q a) arts =
      sortDescStable (fun a => kwOf q a) arts := by
    apply sortDescStable_congr
    intro a b
    have h35 : (0 : ℚ) < 3/5 := by norm_num
    exact ⟨fun hab => (mul_lt_mul_left h35).mp hab,
      fun hab => (mul_lt_mul_left h35).mpr hab⟩
  rw [h3]

/-! Lemmas for the threshold behaviour (C5). -/

/-- A hint whose best ratio over the whole catalogue is below `0.35`
leaves the ESAG reorder state untouched. -/
theorem reorderStep_subthreshold (arts : List Artwork) (st : List ℕ × List Artwork)
    (t : String) (h : (ESAG.bestMatch t.data arts).2 < 7/20) :
    ESAG.reorderStep arts st t = st := by
  unfold ESAG.reorderStep
  cases hb : ESAG.bestMatch t.data arts with
  | mk b s =>
      rw [hb] at h
      cases b with
      | none => rfl
      | some pa =>
          have : ¬ s ≥ 7/20 := not_le.mpr h
          simp [this]

/-- Removing a sub-threshold hint from the hint list does not change
the ESAG reorder loop result. -/
theorem esagLoop_drop_subthreshold (arts : List Artwork) (pre post : List String)
    (t : String) (h : (ESAG.bestMatch t.data arts).2 < 7/20) :
    (pre ++ t :: post).foldl (ESAG.reorderStep arts) ([], []) =
      (pre ++ post).foldl (ESAG.reorderStep arts) ([], []) := by
  rw [List.foldl_append, List.foldl_append, List.foldl_cons,
    reorderStep_subthreshold arts _ t h]

/-- `get_close_matches` returns nothing when every candidate ratio is
below the cutoff `0.4`. -/
theorem getCloseMatch1_below (word : List Char) (poss : List (List Char))
    (h : ∀ x ∈ poss, ratioQ x word < 2/5) : Demo0.getCloseMatch1 word poss = none := by
  unfold Demo0.getCloseMatch1
  have hnil : poss.filterMap (fun x =>
      let r := ratioQ x word
      if r ≥ 2/5 then some (r, x) else none) = [] := by
    induction poss with
    | nil => rfl
    | cons p ps ih =>
        rw [List.filterMap_cons]
        simp only [not_le.mpr (h p (by simp)), if_false]
        exact ih (fun x hx => h x (by simp [hx]))
  rw [hnil]
  rfl

/-- A hint all of whose catalogue ratios are below `0.4` is skipped by
the boost-map loop of `demo0.order_artworks`, touching neither the map
nor any weight. -/
theorem boostLoop_skip (realLower : List String) (idx : ℕ) (t : String)
    (ts : List String) (m : List (String × ℚ))
    (h : ∀ x ∈ realLower, ratioQ x.data (lowerL t.data) < 2/5) :
    Demo0.boostLoop realLower idx (t :: ts) m =
      Demo0.boostLoop realLower (idx + 1) ts m := by
  have hnone := getCloseMatch1_below (lowerL t.data) (realLower.map (fun s => s.data))
    (fun x hx => by
      rcases List.mem_map.mp hx with ⟨s, hs, rfl⟩
      exact h s hs)
  simp only [Demo0.boostLoop, hnone]

/-! Lemmas for the parser claims (C6). -/

theorem parsedTitles_ne_empty (text : String) (t : String)
    (h : t ∈ ESAG.parsedTitles text) : t ≠ "" := by
  unfold ESAG.parsedTitles at h
  rcases List.mem_filterMap.mp h with ⟨cap, _, hcap⟩
  by_cases he : (trimWs (cap.takeWhile (fun c => !ESAG.sepChar c))).isEmpty
  · simp [he] at hcap
  · simp [he] at hcap
    intro hcontra
    rw [hcontra] at hcap
    have hdata : lowerL (trimWs (cap.takeWhile (fun c => !ESAG.sepChar c))) =
        ([] : List Char) := congrArg String.data hcap
    unfold lowerL at hdata
    rw [List.map_eq_nil_iff] at hdata
    rw [hdata] at he
    simp at he

theorem esag_no_parse (q : String) (arts : List Artwork) (raw : String)
    (hq : ¬ q = "") (hp : ESAG.parsedTitles (⟨trimWs raw.data⟩ : String) = []) :
    ESAG.recommend_artworks_with_openai q arts (Oracle.success raw) =
      (some (⟨trimWs raw.data⟩ : String), arts) := by
  unfold ESAG.recommend_artworks_with_openai
  simp [hq, hp]

theorem get_ai_len (q : String) (hasKey : Bool) (o : Oracle) :
    (Demo0.get_ai_ranked_titles q hasKey o).2.length ≤ 3 := by
  unfold Demo0.get_ai_ranked_titles
  split
  · simp
  · cases o with
    | success raw => exact List.length_take_le 3 _
    | failure e => simp

/-! Lemmas for the boost indexing claim (C10). -/

theorem boostLoop_ok (realLower : List String) :
    ∀ (ts : List String) (idx : ℕ) (m : List (String × ℚ)), idx + ts.length ≤ 3 →
      okB (Demo0.boostLoop realLower idx ts m) = true
  | [], _, _, _ => rfl
  | t :: ts, idx, m, h => by
      have hlen : idx + ts.length + 1 ≤ 3 := by
        simp only [List.length_cons] at h
        omega
      unfold Demo0.boostLoop
      cases hg : Demo0.getCloseMatch1 (lowerL t.data)
          (realLower.map (fun s => s.data)) with
      | none => exact boostLoop_ok realLower ts (idx + 1) m (by omega)
      | some b =>
          have hidx : idx < 3 := by omega
          have hw : ∃ w, Demo0.weights3.get? idx = some w := by
            interval_cases idx
            · exact ⟨1, rfl⟩
            · exact ⟨33/50, rfl⟩
            · exact ⟨33/100, rfl⟩
          obtain ⟨w, hw⟩ := hw
          rw [hw]
          exact boostLoop_ok realLower ts (idx + 1) _ (by omega)

/-! Lemmas for the lexical scorer claim (C7). -/

theorem compute_matches_spec (q : String) (a : Artwork) (h : strOrNoTitle a = true) :
    Demo0.compute_keyword_score q a = Except.ok (specLexScore q a) := by
  unfold strOrNoTitle at h
  unfold Demo0.compute_keyword_score specLexScore
  by_cases hq : tokenSet q = ∅
  · simp [hq, Demo0.kwBase]
  · cases ht : a.title with
    | none =>
        simp only [hq, if_false, ht]
        unfold Demo0.kwWithTitle
        simp [ht, strOfField, Finset.nonempty_iff_ne_empty, fieldConcat,
          Demo0.searchFields, Demo0.kwBase]
    | some v =>
        cases v with
        | str s =>
            simp only [hq, if_false, ht]
            unfold Demo0.kwWithTitle
            simp [ht, strOfField, Finset.nonempty_iff_ne_empty, fieldConcat,
              Demo0.searchFields, Demo0.kwBase]
        | nonstr r => simp [ht] at h

theorem specLexScore_range (q : String) (a : Artwork) :
    0 ≤ specLexScore q a ∧ specLexScore q a ≤ 1 := by
  refine ⟨?_, min_le_right _ 1⟩
  unfold specLexScore
  apply le_min
  · have hbase : (0 : ℚ) ≤ ((tokenSet q ∩ tokenSet (fieldConcat a)).card : ℚ) /
        ((max 1 (tokenSet q).card : ℕ) : ℚ) := by
      apply div_nonneg
      · exact_mod_cast Nat.zero_le _
      · exact_mod_cast Nat.zero_le _
    split
    · linarith
    · exact hbase
  · norm_num

/-! The characterization of the ESAG fuzzy matcher scan (C8). -/

theorem bestMatchAux_cases (aiTitle : List Char) :
    ∀ (as : List Artwork) (i : ℕ) (b : Option (ℕ × Artwork)) (bs : ℚ),
      ((∀ a ∈ as, ESAG.scoreOfArt aiTitle a ≤ bs) ∧
        ESAG.bestMatchAux aiTitle i as (b, bs) = (b, bs)) ∨
      (∃ k a2, as.get? k = some a2 ∧
        ESAG.bestMatchAux aiTitle i as (b, bs) =
          (some (i + k, a2), ESAG.scoreOfArt aiTitle a2) ∧
        bs < ESAG.scoreOfArt aiTitle a2 ∧
        (∀ j c, as.get? j = some c → j < k →
          ESAG.scoreOfArt aiTitle c < ESAG.scoreOfArt aiTitle a2) ∧
        (∀ j c, as.get? j = some c →
          ESAG.scoreOfArt aiTitle c ≤ ESAG.scoreOfArt aiTitle a2))
  | [], i, b, bs => Or.inl ⟨by simp, rfl⟩
  | a :: as, i, b, bs => by
      by_cases hsc : ESAG.scoreOfArt aiTitle a > bs
      · have hstep : ESAG.bestMatchAux aiTitle i (a :: as) (b, bs) =
            ESAG.bestMatchAux aiTitle (i + 1) as
              (some (i, a), ESAG.scoreOfArt aiTitle a) := by
          simp [ESAG.bestMatchAux, hsc]
        rcases bestMatchAux_cases aiTitle as (i + 1) (some (i, a))
            (ESAG.scoreOfArt aiTitle a) with
          ⟨hall, heq⟩ | ⟨k, a2, hget, heq, hlt, hbefore, hle⟩
        · refine Or.inr ⟨0, a, rfl, ?_, hsc, ?_, ?_⟩
          · rw [hstep, heq, Nat.add_zero]
          · intro j c _ hjlt
            exact absurd hjlt (Nat.not_lt_zero j)
          · intro j c hj
            cases j with
            | zero =>
                simp only [List.get?_cons_zero, Option.some.injEq] at hj
                rw [← hj]
            | succ j2 =>
                simp only [List.get?_cons_succ] at hj
                exact hall c (List.get?_mem hj)
        · refine Or.inr ⟨k + 1, a2, by simpa using hget, ?_,
            lt_trans hsc hlt, ?_, ?_⟩
          · have hi : i + 1 + k = i + (k + 1) := by omega
            rw [hstep, heq, hi]
          · intro j c hj hjlt
            cases j with
            | zero =>
                simp only [List.get?_cons_zero, Option.some.injEq] at hj
                rw [← hj]
                exact hlt
            | succ j2 =>
                simp only [List.get?_cons_succ] at hj
                exact hbefore j2 c hj (by omega)
          · intro j c hj
            cases j with
            | zero =>
                simp only [List.get?_cons_zero, Option.some.injEq] at hj
                rw [← hj]
                exact le_of_lt hlt
            | succ j2 =>
                simp only [List.get?_cons_succ] at hj
                exact hle j2 c hj
      · have hstep : ESAG.bestMatchAux aiTitle i (a :: as) (b, bs) =
            ESAG.bestMatchAux aiTitle (i + 1) as (b, bs) := by
          simp [ESAG.bestMatchAux, hsc]
        rcases bestMatchAux_cases aiTitle as (i + 1) b bs with
          ⟨hall, heq⟩ | ⟨k, a2, hget, heq, hlt, hbefore, hle⟩
        · refine Or.inl ⟨?_, by rw [hstep, heq]⟩
          intro x hx
          rcases List.mem_cons.mp hx with rfl | hx2
          · exact not_lt.mp hsc
          · exact hall x hx2
        · refine Or.inr ⟨k + 1, a2, by simpa using hget, ?_, hlt, ?_, ?_⟩
          · have hi : i + 1 + k = i + (k + 1) := by omega
            rw [hstep, heq, hi]
          · intro j c hj hjlt
            cases j with
            | zero =>
                simp only [List.get?_cons_zero, Option.some.injEq] at hj
                rw [← hj]
                exact lt_of_le_of_lt (not_lt.mp hsc) hlt
            | succ j2 =>
                simp only [List.get?_cons_succ] at hj
                exact hbefore j2 c hj (by omega)
          · intro j c hj
            cases j with
            | zero =>
                simp only [List.get?_cons_zero, Option.some.injEq] at hj
                rw [← hj]
                exact le_of_lt (lt_of_le_of_lt (not_lt.mp hsc) hlt)
            | succ j2 =>
                simp only [List.get?_cons_succ] at hj
                exact hle j2 c hj

/-! Concrete inputs used by the claim evaluations. -/

def beachView : Artwork := artT "Beach View"

def mountainFlowers : Artwork := artT "Mountain Flowers"

def monalisa : Artwork := artT "Monalisa"

/-- The catalogue of the spec scenarios. -/
def c4Catalogue : List Artwork := [beachView, mountainFlowers, monalisa]

/-- The oracle stub of the spec scenario "oracle hint reordering". -/
def c4StubText : String := "1. Mountain Flowers – calming\n2. Beach View – coastal"

/-- A 50-character title whose ratio against `c5Hint` is exactly
`0.34`: seventeen matched characters out of one hundred. -/
def c5Title : String := ⟨List.replicate 17 'a' ++ List.replicate 33 'b'⟩

/-- A 50-character oracle hint sharing exactly a 17-character block
with `c5Title`. -/
def c5Hint : String := ⟨List.replicate 17 'a' ++ List.replicate 33 'c'⟩

/-- An oracle reply whose two numbered lines both start-match the
title "Beach View" in the demo.py variant. -/
def c1Text : String := "1. Beach\n2. Beach View"

/-- Eleven numbered lines, for the parser length bound. -/
def c6ElevenLines : String :=
  "1. a\n2. b\n3. c\n4. d\n5. e\n6. f\n7. g\n8. h\n9. i\n10. j\n11. k"

/-- A record whose stored title is a non-string value (its `str()`
form is "3.5"). -/
def badTitleArt : Artwork :=
  ⟨some (FieldVal.nonstr "3.5"), none, none, none, none, none, none⟩

/-! Claim theorems. -/

/-- Claim C1 (code bug, evaluation at the failing input): on the
catalogue `[Beach View, Monalisa]` with the oracle reply
`"1. Beach\n2. Beach View"`, both parsed hints ("beach",
"beach view") start-match the record "Beach View", and the demo.py
reorder loop, which has no duplicate guard, appends it twice: the
output lists Beach View twice and is not a permutation of the
catalogue. -/
theorem c1_demo_duplicate_eval :
    DemoPy.recommend_artworks_with_openai "beach art" [beachView, monalisa]
        (Oracle.success c1Text) =
      Except.ok (some c1Text, [beachView, beachView, monalisa]) ∧
    ¬ List.Perm [beachView, beachView, monalisa] [beachView, monalisa] := by
  constructor
  · decide
  · intro hperm
    have hlen := hperm.length_eq
    simp at hlen

/-- Claim C2 (confirmed): with the empty query every ranking variant
returns the catalogue in its original order, whatever the oracle
would have answered.  The demo0 variant needs the catalogue invariant
that titles are strings, because line 183 reads
`art["title"].lower()` unconditionally. -/
theorem c2_empty_query_identity :
    (∀ (arts : List Artwork) (o : Oracle),
        ESAG.recommend_artworks_with_openai "" arts o = (none, arts)) ∧
    (∀ (arts : List Artwork) (o : Oracle),
        DemoPy.recommend_artworks_with_openai "" arts o = Except.ok (none, arts)) ∧
    (∀ (arts : List Artwork) (hasKey : Bool) (o : Oracle),
        (∀ a ∈ arts, strTitle a = true) →
        (Demo0.order_artworks "" arts hasKey o).map (fun r => (r.1, r.2.1)) =
          Except.ok (none, arts)) := by
  refine ⟨fun arts o => rfl, fun arts o => rfl, fun arts hasKey o h => ?_⟩
  have hrun := order_artworks_no_hints "" arts hasKey o none rfl h
  rw [hrun, sortDescStable_const (fun a => kwOf "" a) 0 arts (fun x _ => kwOf_empty x)]

/-- Witness for C2 at a concrete catalogue and oracle stub. -/
theorem c2_empty_query_identity_witness :
    (Demo0.order_artworks "" [artT "Beach View", artT "Monalisa"] true
        (Oracle.success "1. Monalisa – x")).map (fun r => (r.1, r.2.1)) =
      Except.ok (none, [artT "Beach View", artT "Monalisa"]) :=
  c2_empty_query_identity.2.2 [artT "Beach View", artT "Monalisa"] true
    (Oracle.success "1. Monalisa – x") (by decide)

set_option maxRecDepth 40000 in
unseal Rat.add Rat.mul Rat.inv Rat.sub in
/-- Claim C3 (counterexample): when the oracle call fails, the demo0
explanation is the error note `"(AI error: ...)"` — present, and
displayed by the caller — not absent as the claim states. -/
theorem c3_error_note_not_absent :
    (Demo0.order_artworks "beach" [beachView] true (Oracle.failure "boom")).map
        (fun r => r.1) = Except.ok (some "(AI error: boom)") ∧
    (Demo0.order_artworks "beach" [beachView] true (Oracle.failure "boom")).map
        (fun r => r.1) ≠ Except.ok none := by
  refine ⟨by decide, by decide⟩

/-- Claim C3 (amended): on an oracle failure the ESAG variant returns
the original order with the explanation absent, and the demo0 variant
returns the order produced by the lexical score alone together with
the error-note explanation (present, not absent). -/
theorem c3_failure_fallback :
    (∀ (q : String) (arts : List Artwork) (e : String),
        ESAG.recommend_artworks_with_openai q arts (Oracle.failure e) = (none, arts)) ∧
    (∀ (q : String) (arts : List Artwork) (e : String), ¬ q = "" →
        (∀ a ∈ arts, strTitle a = true) →
        (Demo0.order_artworks q arts true (Oracle.failure e)).map
            (fun r => (r.1, r.2.1)) =
          Except.ok (some ("(AI error: " ++ e ++ ")"), lexicalOrder q arts)) := by
  constructor
  · intro q arts e
    unfold ESAG.recommend_artworks_with_openai
    by_cases hq : q = "" <;> simp [hq]
  · intro q arts e hq h
    have hget : Demo0.get_ai_ranked_titles q true (Oracle.failure e) =
        (some ("(AI error: " ++ e ++ ")"), []) := by
      unfold Demo0.get_ai_ranked_titles
      simp [hq]
    exact order_artworks_no_hints q arts true (Oracle.failure e) _ hget h

/-- Witness for C3 (amended) at a concrete failing call. -/
theorem c3_failure_fallback_witness :
    (Demo0.order_artworks "beach" [artT "Monalisa"] true (Oracle.failure "x")).map
        (fun r => (r.1, r.2.1)) =
      Except.ok (some ("(AI error: " ++ "x" ++ ")"),
        lexicalOrder "beach" [artT "Monalisa"]) :=
  c3_failure_fallback.2 "beach" [artT "Monalisa"] "x" (by decide) (by decide)

set_option maxRecDepth 40000 in
unseal Rat.add Rat.mul Rat.inv Rat.sub in
/-- Claim C4 (counterexample): with the empty query, demo0 short-
circuits before consulting the oracle, so the stub of the scenario is
ignored and the output is the identity order — Beach View stays
before Mountain Flowers, contradicting the claimed order. -/
theorem c4_empty_query_ignores_stub :
    (Demo0.order_artworks "" c4Catalogue true (Oracle.success c4StubText)).map
        (fun r => r.2.1) = Except.ok c4Catalogue ∧
    (Demo0.order_artworks "" c4Catalogue true (Oracle.success c4StubText)).map
        (fun r => r.2.1) ≠ Except.ok [mountainFlowers, beachView, monalisa] := by
  refine ⟨by decide, by decide⟩

set_option maxRecDepth 200000 in
unseal Rat.add Rat.mul Rat.inv Rat.sub in
/-- Claim C4 (amended): with a non-empty query whose lexical score is
`0` for every artwork (here "zzz"), the oracle stub of the scenario
does reorder the catalogue to Mountain Flowers, Beach View, then the
unmentioned title, through the `1.0`/`0.66` rank-bonus weights and the
fuzzy term. -/
theorem c4_rank_bonus_order :
    (Demo0.order_artworks "zzz" c4Catalogue true (Oracle.success c4StubText)).map
        (fun r => r.2.1) =
      Except.ok [mountainFlowers, beachView, monalisa] ∧
    (∀ a ∈ c4Catalogue, kwOf "zzz" a = 0) := by
  refine ⟨by decide, by decide⟩

set_option maxRecDepth 500000 in
unseal Rat.add Rat.mul Rat.inv Rat.sub in
/-- Claim C5 (counterexample): a hint whose best fuzzy similarity
against the catalogue is exactly `0.34` (and `0` against the other
record) still changes the final demo0 order through the `0.25`-weight
fuzzy term, although it is below both observed thresholds: the order
with the hint differs from the order computed without it. -/
theorem c5_subthreshold_hint_alters_order :
    ratioQ c5Title.data c5Hint.data = 17/50 ∧
    ratioQ "qq".data c5Hint.data = 0 ∧
    (Demo0.order_artworks "zzz" [artT "qq", artT c5Title] true
        (Oracle.success ("1. " ++ c5Hint))).map (fun r => r.2.1) =
      Except.ok [artT c5Title, artT "qq"] ∧
    (Demo0.order_artworks "zzz" [artT "qq", artT c5Title] true
        (Oracle.success "no structured hints")).map (fun r => r.2.1) =
      Except.ok [artT "qq", artT c5Title] := by
  refine ⟨by decide, by decide, by decide, by decide⟩

/-- Claim C5 (amended): the acceptance thresholds govern only the
hint-to-record matching steps: in the ESAG variant a hint whose best
ratio is below `0.35` leaves the reorder result unchanged, and in
demo0 a hint below the `0.4` cutoff is skipped by the rank-bonus map —
but demo0's fuzzy score term has no threshold (see the
counterexample). -/
theorem c5_threshold_scope :
    (∀ (arts : List Artwork) (pre post : List String) (t : String),
        (ESAG.bestMatch t.data arts).2 < 7/20 →
        (pre ++ t :: post).foldl (ESAG.reorderStep arts) ([], []) =
          (pre ++ post).foldl (ESAG.reorderStep arts) ([], [])) ∧
    (∀ (realLower : List String) (idx : ℕ) (t : String) (ts : List String)
        (m : List (String × ℚ)),
        (∀ x ∈ realLower, ratioQ x.data (lowerL t.data) < 2/5) →
        Demo0.boostLoop realLower idx (t :: ts) m =
          Demo0.boostLoop realLower (idx + 1) ts m) :=
  ⟨fun arts pre post t h => esagLoop_drop_subthreshold arts pre post t h,
   fun realLower idx t ts m h => boostLoop_skip realLower idx t ts m h⟩

set_option maxRecDepth 40000 in
unseal Rat.add Rat.mul Rat.inv Rat.sub in
/-- Witness for C5 (amended) on a concrete sub-threshold hint. -/
theorem c5_threshold_scope_witness :
    (([("zz" : String)] : List String).foldl (ESAG.reorderStep [artT "qq"]) ([], []) =
      ([] : List String).foldl (ESAG.reorderStep [artT "qq"]) ([], [])) ∧
    Demo0.boostLoop ["qq"] 0 ["zz"] [] = Demo0.boostLoop ["qq"] 1 [] [] :=
  ⟨c5_threshold_scope.1 [artT "qq"] [] [] "zz" (by decide),
   c5_threshold_scope.2 ["qq"] 0 "zz" [] [] (by decide)⟩

/-- Claim C6 (counterexample): the ESAG parser does not truncate its
result to ten candidates — eleven numbered lines parse to eleven
candidates (only the consuming reorder loop takes the first ten). -/
theorem c6_parse_not_capped_at_ten :
    (ESAG.parsedTitles c6ElevenLines).length = 11 := by decide

/-- Claim C6 (amended): every parsed candidate is non-empty (the text
before the first separator, trimmed, lower-cased); zero matching lines
make the ESAG variant return the artworks unchanged with the response
text as explanation; and the demo0 parser returns at most three
titles.  The parse list itself is not truncated to ten. -/
theorem c6_parser_contract :
    (∀ (text t : String), t ∈ ESAG.parsedTitles text → t ≠ "") ∧
    (∀ (q : String) (arts : List Artwork) (raw : String), ¬ q = "" →
        ESAG.parsedTitles (⟨trimWs raw.data⟩ : String) = [] →
        ESAG.recommend_artworks_with_openai q arts (Oracle.success raw) =
          (some (⟨trimWs raw.data⟩ : String), arts)) ∧
    (∀ (q : String) (hasKey : Bool) (o : Oracle),
        (Demo0.get_ai_ranked_titles q hasKey o).2.length ≤ 3) :=
  ⟨fun text t h => parsedTitles_ne_empty text t h,
   fun q arts raw hq hp => esag_no_parse q arts raw hq hp,
   fun q hasKey o => get_ai_len q hasKey o⟩

/-- Witness for C6 (amended) on concrete texts. -/
theorem c6_parser_contract_witness :
    (("a" : String) ≠ "") ∧
    ESAG.recommend_artworks_with_openai "beach" [artT "Monalisa"]
        (Oracle.success "no numbered lines") =
      (some (⟨trimWs ("no numbered lines" : String).data⟩ : String),
        [artT "Monalisa"]) :=
  ⟨c6_parser_contract.1 "1. a" "a" (by decide),
   c6_parser_contract.2.1 "beach" [artT "Monalisa"] "no numbered lines"
     (by decide) (by decide)⟩

/-- Claim C7 (counterexample): a record whose stored title is a
non-string value makes `compute_keyword_score` raise (AttributeError
on `.lower()`) for a non-empty query, instead of being skipped. -/
theorem c7_nonstring_title_raises :
    Demo0.compute_keyword_score "beach" badTitleArt =
      Except.error "AttributeError" := by decide

/-- Claim C7 (amended): for records whose title is absent or a string,
the lexical score equals the claimed formula
`min(|q ∩ f|/max(1,|q|) + (title-hit ? 0.25 : 0), 1)` over the
normalized searchable-field concatenation; the score always lies in
`[0, 1]`; and the empty query scores `0` for every record (even one
with a non-string title).  Only a present non-string title raises. -/
theorem c7_lexical_score_spec :
    (∀ (q : String) (a : Artwork), strOrNoTitle a = true →
        Demo0.compute_keyword_score q a = Except.ok (specLexScore q a)) ∧
    (∀ (q : String) (a : Artwork), 0 ≤ specLexScore q a ∧ specLexScore q a ≤ 1) ∧
    (∀ a : Artwork, Demo0.compute_keyword_score "" a = Except.ok 0) :=
  ⟨fun q a h => compute_matches_spec q a h,
   fun q a => specLexScore_range q a,
   fun _ => rfl⟩

/-- Witness for C7 (amended) at a concrete query and record. -/
theorem c7_lexical_score_spec_witness :
    Demo0.compute_keyword_score "beach" (artT "Beach View") =
      Except.ok (specLexScore "beach" (artT "Beach View")) :=
  c7_lexical_score_spec.1 "beach" (artT "Beach View") (by decide)

set_option maxRecDepth 100000 in
unseal Rat.add Rat.mul Rat.inv Rat.sub in
/-- Claim C8 (counterexample): in demo0, `get_close_matches` breaks
the tie between the equal-ratio titles "xa" (index 0) and "ya"
(index 1) in favour of the lexicographically larger string "ya" — not
the lowest catalogue index — and the boost therefore reorders the
later record first. -/
theorem c8_demo0_tie_prefers_larger_string :
    ratioQ "xa".data "xy".data = 1/2 ∧
    ratioQ "ya".data "xy".data = 1/2 ∧
    Demo0.getCloseMatch1 "xy".data ["xa".data, "ya".data] = some "ya".data ∧
    (Demo0.order_artworks "zzz" [artT "xa", artT "ya"] true
        (Oracle.success "1. xy")).map (fun r => r.2.1) =
      Except.ok [artT "ya", artT "xa"] := by
  refine ⟨by decide, by decide, by decide, by decide⟩

/-- Claim C8 (amended): the ESAG fuzzy matcher does resolve ties to
the lowest catalogue index: whenever its scan returns index `i`, every
earlier index scores strictly less and no index scores more.  (The
demo0 variant instead prefers the lexicographically largest title on a
tie — see the counterexample.) -/
theorem c8_esag_tie_lowest_index :
    ∀ (hint : List Char) (arts : List Artwork) (i : ℕ) (a : Artwork),
      (ESAG.bestMatch hint arts).1 = some (i, a) →
      arts.get? i = some a ∧
      (∀ j c, arts.get? j = some c → j < i →
        ESAG.scoreOfArt hint c < ESAG.scoreOfArt hint a) ∧
      (∀ j c, arts.get? j = some c →
        ESAG.scoreOfArt hint c ≤ ESAG.scoreOfArt hint a) := by
  intro hint arts i a hsome
  rcases bestMatchAux_cases hint arts 0 none 0 with
    ⟨_, heq⟩ | ⟨k, a2, hget, heq, _, hbefore, hle⟩
  · unfold ESAG.bestMatch at hsome
    rw [heq] at hsome
    simp at hsome
  · unfold ESAG.bestMatch at hsome
    rw [heq] at hsome
    simp only [Nat.zero_add, Option.some.injEq, Prod.mk.injEq] at hsome
    obtain ⟨hk, ha⟩ := hsome
    subst hk
    subst ha
    exact ⟨hget, hbefore, hle⟩

set_option maxRecDepth 40000 in
unseal Rat.add Rat.mul Rat.inv Rat.sub in
/-- Witness for C8 (amended) on the concrete tie. -/
theorem c8_esag_tie_lowest_index_witness :
    ([artT "xa", artT "ya"].get? 0 = some (artT "xa")) ∧
    (∀ j c, [artT "xa", artT "ya"].get? j = some c → j < 0 →
      ESAG.scoreOfArt ("xy".data) c < ESAG.scoreOfArt ("xy".data) (artT "xa")) ∧
    (∀ j c, [artT "xa", artT "ya"].get? j = some c →
      ESAG.scoreOfArt ("xy".data) c ≤ ESAG.scoreOfArt ("xy".data) (artT "xa")) :=
  c8_esag_tie_lowest_index "xy".data [artT "xa", artT "ya"] 0 (artT "xa") (by decide)

/-- Claim C9 (confirmed): the ranking cores are deterministic — the
translated bodies never consult the ambient entropy, so two calls on
the same query, catalogue and fixed oracle stub return identical
results (orderings and highlight sets included); moreover the stable
descending order produced by the sort is the unique list satisfying
its specification `IsStableDescOrder`, so any conforming stable-sort
implementation yields the same ordering. -/
theorem c9_core_deterministic :
    (∀ (e₁ e₂ : ℕ → ℕ) (q : String) (arts : List Artwork) (hasKey : Bool) (o : Oracle),
        order_artworks_call e₁ q arts hasKey o = order_artworks_call e₂ q arts hasKey o) ∧
    (∀ (e₁ e₂ : ℕ → ℕ) (q : String) (arts : List Artwork) (o : Oracle),
        esag_recommend_call e₁ q arts o = esag_recommend_call e₂ q arts o) ∧
    (∀ (e₁ e₂ : ℕ → ℕ) (q : String) (arts : List Artwork) (o : Oracle),
        demo_recommend_call e₁ q arts o = demo_recommend_call e₂ q arts o) ∧
    (∀ {α : Type} (key : α → ℚ) (l : List α),
        IsStableDescOrder key l (sortDescStable key l)) ∧
    (∀ {α : Type} (key : α → ℚ) (l out₁ out₂ : List α),
        IsStableDescOrder key l out₁ → IsStableDescOrder key l out₂ → out₁ = out₂) :=
  ⟨fun _ _ _ _ _ _ => rfl, fun _ _ _ _ _ => rfl, fun _ _ _ _ _ => rfl,
   fun key l => sortDescStable_isStable key l,
   fun key l out₁ out₂ h₁ h₂ => isStableDescOrder_unique key l out₁ out₂ h₁ h₂⟩

/-- Witness for C9 on a concrete call and a concrete sort. -/
theorem c9_core_deterministic_witness :
    order_artworks_call (fun n => n) "beach" [artT "Monalisa"] true
        (Oracle.failure "x") =
      order_artworks_call (fun n => n + 1) "beach" [artT "Monalisa"] true
        (Oracle.failure "x") ∧
    sortDescStable (fun x : ℚ => x) [(1 : ℚ), 2] =
      sortDescStable (fun x : ℚ => x) [(1 : ℚ), 2] :=
  ⟨c9_core_deterministic.1 (fun n => n) (fun n => n + 1) "beach" [artT "Monalisa"]
      true (Oracle.failure "x"),
   c9_core_deterministic.2.2.2.2 (fun x : ℚ => x) [(1 : ℚ), 2] _ _
     (c9_core_deterministic.2.2.2.1 (fun x : ℚ => x) [(1 : ℚ), 2])
     (c9_core_deterministic.2.2.2.1 (fun x : ℚ => x) [(1 : ℚ), 2])⟩

/-- Claim C10 (confirmed): the boost map construction of
`demo0.order_artworks` can never raise an out-of-range error on
`[1.0, 0.66, 0.33][idx]`: the titles list produced by
`get_ai_ranked_titles` has length at most 3 (its parse truncates to
the first three), so the running index never exceeds 2, for every
query, key state, oracle outcome and catalogue title list. -/
theorem c10_boost_weights_indexing_safe :
    ∀ (q : String) (hasKey : Bool) (o : Oracle) (realLower : List String),
      okB (Demo0.boostLoop realLower 0 (Demo0.get_ai_ranked_titles q hasKey o).2 []) =
        true :=
  fun q hasKey o realLower =>
    boostLoop_ok realLower (Demo0.get_ai_ranked_titles q hasKey o).2 0 []
      (by simpa using get_ai_len q hasKey o)

end ArtHub
